/-
Verification of the Page Layout & Assignment Engine of `album_gui.py`.

The definitions below are a shallow embedding of the engine state and of the
operations `handle_drop`, `init_trees`, `start_optimization`, `take_snapshot`
and `restore_snapshot` from `src/album_gui.py`.  Python dictionaries are
embedded as association lists with unique keys (insertion order preserved,
matching CPython semantics); Python's `random` module is embedded as an
explicit linear-congruential generator threaded through the functions;
`sa.Node` children (`Optional[Node]` in Python) are embedded by a dedicated
`Node.nil` constructor.

Functions of the `sa_advanced` module (`is_power_of_two`, `build_full_tree`,
`leaf_ids`, `internal_nodes`, the `Node` class) are not part of the sources
under verification; they are modelled from the specification, as marked in
their doc comments.
-/
import Mathlib

namespace Album

/-- Direction of a split in a partition tree. -/
inductive Dir
  | horizontal
  | vertical
deriving DecidableEq

/-- Modelled from the spec: the `sa.Node` binary-tree node.  `split_direction`
is `none` on leaves, `split_ratio` is a fraction in `(0,1)`, `leaf_id` is
present only on leaf nodes, `locked` marks a user-fixed subtree.  A Python
`None` child (`Optional[sa.Node]`) is embedded as the `nil` constructor.
The float `split_ratio` is embedded as its per-mille numerator (an integer
`t` standing for the fraction `t / 1000`): the claims only compare ratios
for equality, never compute with them. -/
inductive Node
  | nil
  | mk (dir : Option Dir) (t : Int) (leafId : Option Int) (locked : Bool)
      (left : Node) (right : Node)
deriving DecidableEq

/-- The recursive dictionary document produced by `serialize_tree`
(keys `dir`, `t`, `leaf_id`, `locked`, `left`, `right`); `nil` is the JSON
`null` written for a `None` node. -/
inductive TreeDoc
  | nil
  | mk (dir : Option Dir) (t : Int) (leafId : Option Int) (locked : Bool)
      (left : TreeDoc) (right : TreeDoc)
deriving DecidableEq

/-- `serialize_tree` from `album_gui.py`: a `None` node serializes to `null`,
otherwise each field is copied and the children are serialized recursively. -/
def serialize_tree : Node → TreeDoc
  | .nil => .nil
  | .mk dir t leafId locked left right =>
      .mk dir t leafId locked (serialize_tree left) (serialize_tree right)

/-- `deserialize_tree` from `album_gui.py`: the inverse document walk. -/
def deserialize_tree : TreeDoc → Node
  | .nil => .nil
  | .mk dir t leafId locked left right =>
      .mk dir t leafId locked (deserialize_tree left) (deserialize_tree right)

/-- Modelled from the spec: `sa.leaf_ids`, the read-only traversal returning
the set of `leaf_id`s of a tree.  We return the list of `leaf_id` fields of
the leaf nodes (a node is a leaf iff both children are absent); callers model
the Python set by `List.dedup`. -/
def leaf_ids : Node → List (Option Int)
  | .nil => []
  | .mk _ _ leafId _ left right =>
      if left = Node.nil ∧ right = Node.nil then [leafId]
      else leaf_ids left ++ leaf_ids right

/-- Modelled from the spec: `sa.internal_nodes`, the read-only traversal
returning the internal (non-leaf) nodes of a tree. -/
def internal_nodes : Node → List Node
  | .nil => []
  | .mk dir t leafId locked left right =>
      if left = Node.nil ∧ right = Node.nil then []
      else Node.mk dir t leafId locked left right ::
        (internal_nodes left ++ internal_nodes right)

/-- Whether some node of the subtree (the node itself included) has its
`locked` flag set. -/
def subtree_locked : Node → Bool
  | .nil => false
  | .mk _ _ _ locked left right =>
      locked || subtree_locked left || subtree_locked right

/-- Modelled from the spec: reading `n.locked` on an internal node "reports
has a locked descendant".  `tree_has_locks` is the per-root test
`any(n.locked for n in sa.internal_nodes(root))` of `start_optimization`. -/
def tree_has_locks (root : Node) : Bool :=
  (internal_nodes root).any subtree_locked

/-- Fuel-driven power-of-two test (fuel `n` suffices for input `n`). -/
def isPow2Go : Nat → Nat → Bool
  | 0, _ => false
  | f + 1, n =>
      if n = 1 then true
      else if n % 2 = 0 ∧ n ≠ 0 then isPow2Go f (n / 2) else false

/-- Modelled from the spec: `sa.is_power_of_two`. -/
def is_power_of_two (c : Int) : Bool :=
  0 < c && isPow2Go c.toNat c.toNat

/-- Linear congruential generator embedding Python's `random` stream. -/
def lcg (s : Nat) : Nat :=
  (s * 1103515245 + 12345) % 4294967296

/-- Draw a number below `n` (for `n > 0`) and the successor RNG state. -/
def randNat (s n : Nat) : Nat × Nat :=
  (lcg s % n, lcg s)

/-- A split node built from two RNG draws: the direction from the parity of
`s1`, the per-mille ratio `300 + s2 % 401` (a fraction in
`[0.300, 0.700]`). -/
def buildSplit (left right : Node) (s1 s2 : Nat) : Node :=
  Node.mk (some (if s1 % 2 = 0 then Dir.horizontal else Dir.vertical))
    (300 + (s2 % 401 : Nat) : Int) Option.none false left right

/-- Fuel-driven balanced-tree builder; fuel `count` suffices.  Leaves carry
the default ratio `0.5` (per-mille `500`); split nodes draw a direction and a
ratio in `[0.300, 0.700]` from the seed. -/
def buildBalancedGo : Nat → Nat → Nat → Nat → Node
  | 0, _, offset, _ =>
      Node.mk Option.none 500 (some (Int.ofNat offset)) false Node.nil Node.nil
  | f + 1, count, offset, s =>
      if count ≤ 1 then
        Node.mk Option.none 500 (some (Int.ofNat offset)) false Node.nil Node.nil
      else
        buildSplit (buildBalancedGo f (count / 2) offset (lcg (lcg s)))
          (buildBalancedGo f (count / 2) (offset + count / 2) (lcg (lcg (lcg s))))
          (lcg s) (lcg (lcg s))

/-- Modelled from the spec: `sa.build_full_tree(leaf_count, seed)`
deterministically builds a balanced binary split tree with exactly
`leaf_count` leaves, ids `0 .. leaf_count - 1`, using the seed only to vary
split ratios and directions.  A count that is not a power of two trips the
builder's assertion, embedded as `none`. -/
def build_full_tree (count : Int) (seed : Nat) : Option Node :=
  if is_power_of_two count then
    some (buildBalancedGo count.toNat count.toNat 0 seed)
  else
    Option.none

/-- Python dict lookup `d.get(k)` on an association list. -/
def dict_get? {β : Type} (d : List (Nat × β)) (k : Nat) : Option β :=
  (d.find? (fun p => p.1 == k)).map (·.2)

/-- Python dict update `d[k] = v`: replace the value of an existing key in
place, otherwise append the new binding (CPython insertion order). -/
def dict_set {β : Type} : List (Nat × β) → Nat → β → List (Nat × β)
  | [], k, v => [(k, v)]
  | p :: rest, k, v =>
      if p.1 = k then (k, v) :: rest else p :: dict_set rest k v

/-- The engine state of `AlbumWindow`: exactly the fields of `__init__` that
the layout engine reads and writes (view/widget state is out of scope).
`imageCount` stands for `len(self.image_paths)`, `numPagesSpin` for the value
of the page-count spinbox, `configText` for the slot-spec line edit. -/
structure EngineState where
  imageCount : Nat
  folderName : String
  configText : String
  numPagesSpin : Nat
  pageTitles : List String
  currentPageIdx : Int
  pagesRoots : List Node
  pagesPerms : List (List Nat)
  pagesLocks : List (List (Nat × Nat))
  cropStates : List (Nat × Bool)
  forcedAspects : Finset Nat
deriving DecidableEq

/-- Result marker for `handle_drop`: the silent early returns of the Python
code (a lock/drop referencing a nonexistent page, leaf or image) are the
spec's `OutOfRange` failure. -/
inductive DropOutcome
  | outOfRange
  | done
deriving DecidableEq

/-- Lines 1024–1029 of `album_gui.py`: delete every lock that ties `img` to a
different leaf of the same page, then record `locked[leaf] = img`. -/
def drop_locks (locked : List (Nat × Nat)) (leaf img : Nat) :
    List (Nat × Nat) :=
  dict_set (locked.filter (fun p => decide ¬(p.1 ≠ leaf ∧ p.2 = img))) leaf img

/-- Lines 1031–1039 of `album_gui.py`: the swap-or-overwrite rule.  If `img`
already occurs in the permutation, its first position is swapped with `leaf`
(no-op when it is already there); otherwise `leaf` is overwritten with `img`,
silently displacing the previous occupant. -/
def drop_perm (perm : List Nat) (leaf img : Nat) : List Nat :=
  if img ∈ perm then
    if perm.indexOf img ≠ leaf then
      (perm.set leaf (perm.getD (perm.indexOf img) 0)).set (perm.indexOf img)
        (perm.getD leaf 0)
    else perm
  else perm.set leaf img

/-- `AlbumWindow.handle_drop(page_idx, leaf_id, img_idx)`: bounds checks,
removal of a previous lock tying the same image to another leaf of the page,
recording of the new lock, the swap-or-overwrite permutation update, and the
crop-state / forced-aspect bookkeeping.  `leaf_id` and `img_idx` are `Int`
because the Python code checks them for negativity. -/
def handle_drop (st : EngineState) (pageIdx : Nat) (leafId imgIdx : Int) :
    EngineState × DropOutcome :=
  if st.pagesRoots.isEmpty ∨ st.pagesRoots.length ≤ pageIdx ∨
      (st.pagesPerms.getD pageIdx []).isEmpty then
    (st, .outOfRange)
  else if leafId < 0 ∨ ((st.pagesPerms.getD pageIdx []).length : Int) ≤ leafId then
    (st, .outOfRange)
  else if imgIdx < 0 ∨ (st.imageCount : Int) ≤ imgIdx then (st, .outOfRange)
  else
    ({ st with
        pagesPerms := st.pagesPerms.set pageIdx
          (drop_perm (st.pagesPerms.getD pageIdx []) leafId.toNat imgIdx.toNat)
        pagesLocks := st.pagesLocks.set pageIdx
          (drop_locks (st.pagesLocks.getD pageIdx []) leafId.toNat imgIdx.toNat)
        cropStates := dict_set st.cropStates imgIdx.toNat false
        forcedAspects := insert imgIdx.toNat st.forcedAspects },
      .done)

/-- Sequential application of a list of drop operations
`(page_idx, leaf_id, img_idx)`. -/
def apply_drops (st : EngineState) : List (Nat × Int × Int) → EngineState
  | [] => st
  | (p, l, i) :: rest => apply_drops (handle_drop st p l i).1 rest

/-- ASCII whitespace, embedding Python's `str.strip` default set. -/
def isSpaceChar (c : Char) : Bool :=
  c = ' ' || c = '\t' || c = '\n' || c = '\r'

/-- Python `str.strip()` on a character list. -/
def trimChars (l : List Char) : List Char :=
  ((l.dropWhile isSpaceChar).reverse.dropWhile isSpaceChar).reverse

/-- Python `str.split(",")` on a character list. -/
def splitComma : List Char → List (List Char)
  | [] => [[]]
  | c :: rest =>
      if c = ',' then [] :: splitComma rest
      else
        match splitComma rest with
        | [] => [[c]]
        | h :: t => (c :: h) :: t

/-- Digit accumulator for `parseIntChars`. -/
def digitsValGo : List Char → Nat → Option Nat
  | [], acc => some acc
  | c :: rest, acc =>
      if c.isDigit then digitsValGo rest (acc * 10 + (c.toNat - '0'.toNat))
      else Option.none

/-- Value of a nonempty digit string. -/
def digitsVal (l : List Char) : Option Nat :=
  if l.isEmpty then Option.none else digitsValGo l 0

/-- Python `int(s)` on an already stripped string: optional sign followed by
at least one digit; anything else raises `ValueError`, embedded as `none`. -/
def parseIntChars : List Char → Option Int
  | '-' :: rest => (digitsVal rest).map (fun n => -(n : Int))
  | '+' :: rest => (digitsVal rest).map Int.ofNat
  | l => (digitsVal l).map Int.ofNat

/-- `QSpinBox.setValue` on the page-count spinbox (range 1–99). -/
def clampSpin (n : Nat) : Nat :=
  max 1 (min 99 n)

/-- Outcome of the parse-and-validate stage of `init_trees` (its `try`
block): `ok` carries the page counts, `fail` is the caught `ValueError`.
Both carry the page-count spinbox value as it stands when the block leaves
(the list mode updates the spinbox before the power-of-two validation, so a
validation failure still leaves the spinbox updated). -/
inductive ParseOutcome
  | ok (counts : List Int) (spin : Nat)
  | fail (spin : Nat)
deriving DecidableEq

/-- The `int(s.strip())` results of the nonempty comma-separated parts of a
slot spec. -/
def list_ints (s : List Char) : List (Option Int) :=
  (((splitComma s).map trimChars).filter (fun p => !p.isEmpty)).map
    parseIntChars

/-- Lines 761–793 of `album_gui.py`: strip the slot spec; in list mode parse
the comma-separated nonempty parts and set the spinbox to their number; in
uniform mode replicate the single count (default 4 when empty) over the
spinbox value; then validate that every count is a power of two. -/
def parse_page_config (txt : String) (spin : Nat) : ParseOutcome :=
  if (trimChars txt.data).contains ',' then
    if (list_ints (trimChars txt.data)).any (·.isNone) then .fail spin
    else if ((list_ints (trimChars txt.data)).reduceOption).all
        (fun c => is_power_of_two c) then
      .ok ((list_ints (trimChars txt.data)).reduceOption)
        (clampSpin ((list_ints (trimChars txt.data)).reduceOption).length)
    else .fail (clampSpin ((list_ints (trimChars txt.data)).reduceOption).length)
  else
    match (if (trimChars txt.data).isEmpty then some 4
           else parseIntChars (trimChars txt.data)) with
    | Option.none => .fail spin
    | some slots =>
        if (List.replicate spin slots).all (fun c => is_power_of_two c) then
          .ok (List.replicate spin slots) spin
        else .fail spin

/-- Fuel-driven Fisher–Yates embedding of `random.shuffle`; fuel `l.length`
suffices. -/
def shuffleGo : Nat → List Nat → Nat → List Nat × Nat
  | 0, l, s => (l, s)
  | f + 1, l, s =>
      if l.isEmpty then (l, s)
      else
        let js := randNat s l.length
        let x := l.getD js.1 0
        let rest := l.eraseIdx js.1
        let xss := shuffleGo f rest js.2
        (x :: xss.1, xss.2)

/-- `random.shuffle(pool_indices)` with the RNG state threaded explicitly. -/
def shuffleList (l : List Nat) (s : Nat) : List Nat × Nat :=
  shuffleGo l.length l s

/-- The `while len(page_perm) < count` padding loop of `init_trees`: append
`random.choice(pool_indices)` until the permutation has `count` entries
(fuel `count` suffices). -/
def padPermGo : Nat → List Nat → Nat → List Nat → Nat → List Nat × Nat
  | 0, perm, _, _, s => (perm, s)
  | f + 1, perm, count, pool, s =>
      if perm.length < count then
        let js := randNat s pool.length
        padPermGo f (perm ++ [pool.getD js.1 0]) count pool js.2
      else (perm, s)

/-- Padding entry point with fuel `count`. -/
def padPerm (perm : List Nat) (count : Nat) (pool : List Nat) (s : Nat) :
    List Nat × Nat :=
  padPermGo count perm count pool s

/-- Lines 832–853 of `album_gui.py`: slice contiguous runs of the shuffled
pool (`pool_indices[current_idx : min(current_idx + count, total)]`), pad
each run to its page's count, and advance `current_idx` by `count`. -/
def buildPermsGo : List Nat → List Nat → Nat → Nat → Nat →
    List (List Nat) × Nat
  | [], _, _, _, s => ([], s)
  | count :: rest, pool, total, cur, s =>
      let endIdx := min (cur + count) total
      let slice := (pool.drop cur).take (endIdx - cur)
      let ps := padPerm slice count pool s
      let others := buildPermsGo rest pool total (cur + count) ps.2
      (ps.1 :: others.1, others.2)

/-- Line 795–796: `if not page_counts: page_counts = [4]`. -/
def eff_counts (counts0 : List Int) : List Int :=
  if counts0.isEmpty then [4] else counts0

/-- Lines 800–808: preserve existing page titles by index and synthesize
`"<folder-name> <n>"` for newly added pages. -/
def new_titles (st : EngineState) (numPages : Nat) : List String :=
  (List.range numPages).map (fun i =>
    match st.pageTitles.get? i with
    | some t => t
    | Option.none => st.folderName ++ " " ++ toString (i + 1))

/-- Lines 811–814: clamp the current page index into range (transient: a
successful rebuild resets it to 0 at line 869). -/
def clamp_page_idx (st : EngineState) (numPages : Nat) : Int :=
  max 0
    (if (numPages : Int) ≤ st.currentPageIdx then (numPages : Int) - 1
     else st.currentPageIdx)

/-- Line 822: one deterministic tree per page, seeds `42 + i`. -/
def page_builds (counts : List Int) : List (Option Node) :=
  counts.enum.map (fun ic => build_full_tree ic.2 (42 + ic.1))

/-- Lines 828–853: shuffle the full image-index pool once and derive the
per-page permutations by slicing and padding. -/
def new_perms (countsN : List Nat) (imageCount seed : Nat) :
    List (List Nat) :=
  (buildPermsGo countsN (shuffleList (List.range imageCount) seed).1
    imageCount 0 (shuffleList (List.range imageCount) seed).2).1

/-- Lines 859–867: reset all locks when the number of pages changed,
otherwise drop the locks whose leaf id is out of bounds for the page's new
leaf count. -/
def new_locks (old : List (List (Nat × Nat))) (countsN : List Nat) :
    List (List (Nat × Nat)) :=
  if old.length ≠ countsN.length then
    List.replicate countsN.length ([] : List (Nat × Nat))
  else
    old.enum.map (fun id =>
      id.2.filter (fun p => decide (p.1 < countsN.getD id.1 0)))

/-- The body of `init_trees` after a successfully parsed configuration
(lines 795–874): default `[4]` for an empty count list, title preservation
and synthesis, deterministic per-page tree builds with seeds `42 + i`, pool
shuffle and per-page slicing with padding, and the lock reset/filter rule.
On a tree-build assertion the roots are cleared and the function returns with
the permutations and locks untouched, as in the source. -/
def init_trees_core (st : EngineState) (counts0 : List Int) (seed : Nat) :
    EngineState :=
  if (page_builds (eff_counts counts0)).any (·.isNone) then
    { st with
        pageTitles := new_titles st (eff_counts counts0).length
        currentPageIdx := clamp_page_idx st (eff_counts counts0).length
        pagesRoots := [] }
  else
    { st with
        pageTitles := new_titles st (eff_counts counts0).length
        pagesRoots := (page_builds (eff_counts counts0)).map
          (fun o => o.getD Node.nil)
        pagesPerms := new_perms ((eff_counts counts0).map Int.toNat)
          st.imageCount seed
        pagesLocks := new_locks st.pagesLocks
          ((eff_counts counts0).map Int.toNat)
        currentPageIdx := 0 }

/-- `AlbumWindow.init_trees`: early return when no images are loaded; on a
`ValueError` (bad parse or non-power-of-two count) fall back to `[4]` only
when there is no previous valid state, otherwise return leaving the engine
untouched (except for the spinbox already updated inside the `try` block). -/
def init_trees (st : EngineState) (seed : Nat) : EngineState :=
  if st.imageCount = 0 then st
  else
    match parse_page_config st.configText st.numPagesSpin with
    | .fail spin2 =>
        if st.pagesRoots.isEmpty then
          init_trees_core { st with numPagesSpin := spin2 } [4] seed
        else { st with numPagesSpin := spin2 }
    | .ok counts spin2 =>
        init_trees_core { st with numPagesSpin := spin2 } counts seed

/-- The snapshot document built by `take_snapshot` (rendering settings are
out of the engine's scope and omitted). -/
structure Snapshot where
  numPages : Nat
  pageConfig : String
  pageTitles : List String
  trees : List TreeDoc
  perms : List (List Nat)
  locks : List (List (Nat × Nat))
  cropStates : List (Nat × Bool)
  forcedAspects : List Nat
deriving DecidableEq

/-- Python `int(k)` applied to a key that is already an integer (the in-memory
snapshot documents of `take_snapshot` keep their `int` keys; only the JSON
files on disk stringify them). -/
def pyInt (k : Nat) : Nat := k

/-- `AlbumWindow.take_snapshot` (its in-memory document): deep copies of the
permutations, locks and crop states, serialized trees, and the forced-aspect
set converted to a list (`list(self.forced_aspect_ratios)`, embedded as the
sorted enumeration). -/
def take_snapshot (st : EngineState) : Snapshot :=
  { numPages := st.numPagesSpin
    pageConfig := st.configText
    pageTitles := st.pageTitles
    trees := st.pagesRoots.map serialize_tree
    perms := st.pagesPerms
    locks := st.pagesLocks
    cropStates := st.cropStates
    forcedAspects := st.forcedAspects.sort (· ≤ ·) }

/-- `AlbumWindow.restore_snapshot`: rebuild the trees from the documents,
deep-copy the permutations, coerce lock and crop-state keys back to integers,
convert the forced-aspect list back to a set, and reset the current page. -/
def restore_snapshot (st : EngineState) (snap : Snapshot) : EngineState :=
  { st with
      numPagesSpin := clampSpin snap.numPages
      configText := snap.pageConfig
      pageTitles := snap.pageTitles
      pagesRoots := snap.trees.map deserialize_tree
      pagesPerms := snap.perms
      pagesLocks := snap.locks.map (fun d => d.map (fun p => (pyInt p.1, p.2)))
      cropStates := snap.cropStates.map (fun p => (pyInt p.1, p.2))
      forcedAspects := snap.forcedAspects.toFinset
      currentPageIdx := 0 }

/-- `page_counts` as computed at the top of `start_optimization`:
`len(sa.leaf_ids(r))` per root (`leaf_ids` returns a set, hence `dedup`). -/
def page_counts_of (st : EngineState) : List Nat :=
  st.pagesRoots.map (fun r => ((leaf_ids r).dedup).length)

/-- `total_needed`, the total slot count over all pages. -/
def total_slots (st : EngineState) : Nat :=
  (page_counts_of st).sum

/-- `has_locks` of `start_optimization`: some non-`None` root has an internal
node reporting a locked descendant.  The per-page lock dictionaries are not
consulted. -/
def any_tree_locked (st : EngineState) : Bool :=
  st.pagesRoots.any (fun r => r ≠ Node.nil && tree_has_locks r)

/-- `locked_indices`: the union of all lock values across all pages. -/
def locked_indices_of (locks : List (List (Nat × Nat))) : Finset Nat :=
  ((locks.map (fun d => d.map (·.2))).flatten).toFinset

/-- `mandatory_indices`: locked images united with the images whose mandatory
checkbox is set (`mandFlags` lists the checkbox states in pool order). -/
def mandatory_set (st : EngineState) (mandFlags : List Bool) : Finset Nat :=
  locked_indices_of st.pagesLocks ∪
    ((List.range st.imageCount).filter (fun i => mandFlags.getD i false)).toFinset

/-- `optional_indices`: in-pool images that are neither flagged mandatory nor
already locked, in stable pool order. -/
def optional_list (st : EngineState) (mandFlags poolFlags : List Bool) :
    List Nat :=
  (List.range st.imageCount).filter (fun i =>
    !(mandFlags.getD i false) && poolFlags.getD i false &&
      decide (i ∉ locked_indices_of st.pagesLocks))

/-- The tree rebuild of line 1105: one `build_full_tree(count, randint(0,
1000000))` per page, seeds drawn from the RNG stream.  A failed build
assertion is embedded as `Node.nil` (unreachable for power-of-two counts). -/
def fresh_roots : List Nat → Nat → List Node × Nat
  | [], s => ([], s)
  | c :: rest, s =>
      let s1 := lcg s
      let root := (build_full_tree (Int.ofNat c) (s1 % 1000001)).getD Node.nil
      let others := fresh_roots rest s1
      (root :: others.1, others.2)

/-- The `while len(chunks[p]) < slots_for_page and free_active` filling loop:
each page chunk takes from the front of the shared free-image queue until it
is full or the queue is empty. -/
def fill_chunks : List (List Nat × Nat) → List Nat → List (List Nat)
  | [], _ => []
  | cn :: rest, free =>
      let need := cn.2 - cn.1.length
      (cn.1 ++ free.take need) :: fill_chunks rest (free.drop need)

/-- The request handed to the optimizer worker. -/
structure OptimRequest where
  chunks : List (List Nat)
  swapPool : List Nat
  locks : List (List (Nat × Nat))
  roots : List Node
deriving DecidableEq

/-- Outcome of `start_optimization`: the silent guard return, the two
validation warnings (`OverMandatory` / `UnderSupply`), or a dispatched
worker request. -/
inductive OptimOutcome
  | notReady
  | overMandatory
  | underSupply
  | dispatched (req : OptimRequest)
deriving DecidableEq

/-- Lines 1097–1105: rebuild every tree with a fresh random seed unless some
tree node reports a lock; the per-page lock dictionaries are not consulted. -/
def rebuilt_roots (st : EngineState) (seed : Nat) : List Node :=
  if any_tree_locked st then st.pagesRoots
  else (fresh_roots (page_counts_of st) seed).1

/-- Step D of `start_optimization`: `list(mandatory_indices)` (embedded as
the sorted enumeration of the set) extended with the leading optional images
until the slots are filled. -/
def active_list (st : EngineState) (mandFlags poolFlags : List Bool) :
    List Nat :=
  (mandatory_set st mandFlags).sort (· ≤ ·) ++
    (optional_list st mandFlags poolFlags).take
      (total_slots st - (mandatory_set st mandFlags).card)

/-- Lines 1150–1155: seed each page's chunk with its own locked images when
they are active. -/
def chunk_seeds (st : EngineState) (active : List Nat) : List (List Nat) :=
  (List.range (page_counts_of st).length).map (fun p =>
    ((st.pagesLocks.getD p []).filter
      (fun q => decide (q.2 ∈ active))).map (·.2))

/-- Line 1158: the active images not yet assigned to any chunk, in order. -/
def free_active (st : EngineState) (mandFlags poolFlags : List Bool) :
    List Nat :=
  (active_list st mandFlags poolFlags).filter (fun i =>
    decide (i ∉ (chunk_seeds st (active_list st mandFlags poolFlags)).flatten))

/-- `AlbumWindow.start_optimization`: guard, conditional tree rebuild (which
happens before the feasibility validation), mandatory/optional gathering,
validation, active-image selection, per-page chunk seeding from the page's
own locks, chunk filling, and swap-pool construction. -/
def start_optimization (st : EngineState) (mandFlags poolFlags : List Bool)
    (seed : Nat) : EngineState × OptimOutcome :=
  if st.pagesRoots.isEmpty ∨ st.pagesPerms.isEmpty then (st, .notReady)
  else if total_slots st < (mandatory_set st mandFlags).card then
    ({ st with pagesRoots := rebuilt_roots st seed }, .overMandatory)
  else if (mandatory_set st mandFlags).card +
      (optional_list st mandFlags poolFlags).length < total_slots st then
    ({ st with pagesRoots := rebuilt_roots st seed }, .underSupply)
  else
    ({ st with pagesRoots := rebuilt_roots st seed },
      .dispatched
        { chunks := fill_chunks
            ((chunk_seeds st (active_list st mandFlags poolFlags)).zip
              (page_counts_of st))
            (free_active st mandFlags poolFlags)
          swapPool := (optional_list st mandFlags poolFlags).drop
            (total_slots st - (mandatory_set st mandFlags).card)
          locks := st.pagesLocks
          roots := rebuilt_roots st seed })

/-! ### Helper lemmas -/

theorem dict_get?_set_self {β : Type} (d : List (Nat × β)) (k : Nat) (v : β) :
    dict_get? (dict_set d k v) k = some v := by
  induction d with
  | nil => simp [dict_set, dict_get?]
  | cons p rest ih =>
      by_cases hp : p.1 = k
      · simp [dict_set, hp, dict_get?]
      · simp only [dict_set, if_neg hp]
        simpa [dict_get?, List.find?_cons, hp] using ih

theorem mem_dict_set {β : Type} {d : List (Nat × β)} {k : Nat} {v : β}
    {q : Nat × β} (h : q ∈ dict_set d k v) : q = (k, v) ∨ q ∈ d := by
  induction d with
  | nil => simpa [dict_set] using h
  | cons p rest ih =>
      simp only [dict_set] at h
      by_cases hp : p.1 = k
      · rw [if_pos hp] at h
        rcases List.mem_cons.mp h with h1 | h1
        · exact Or.inl h1
        · exact Or.inr (List.mem_cons_of_mem _ h1)
      · rw [if_neg hp] at h
        rcases List.mem_cons.mp h with h1 | h1
        · exact Or.inr (h1 ▸ List.mem_cons_self _ _)
        · rcases ih h1 with h2 | h2
          · exact Or.inl h2
          · exact Or.inr (List.mem_cons_of_mem _ h2)

theorem list_set_getElem_self {α : Type} (l : List α) (i : Nat)
    (h : i < l.length) : l.set i l[i] = l := by
  apply List.ext_getElem
  · simp
  · intro n h1 h2
    rcases eq_or_ne n i with rfl | hne
    · simp [List.getElem_set]
    · simp [List.getElem_set_of_ne (Ne.symm hne)]

theorem deserialize_serialize_tree (n : Node) :
    deserialize_tree (serialize_tree n) = n := by
  induction n with
  | nil => rfl
  | mk dir t leafId locked left right ihl ihr =>
      simp [serialize_tree, deserialize_tree, ihl, ihr]

/-- The in-bounds normal form of `handle_drop`. -/
theorem handle_drop_eq_of_inbounds (st : EngineState) (pageIdx leaf img : Nat)
    (hpage : pageIdx < st.pagesRoots.length)
    (hleaf : leaf < (st.pagesPerms.getD pageIdx []).length)
    (himg : img < st.imageCount) :
    handle_drop st pageIdx (leaf : Int) (img : Int) =
      ({ st with
          pagesPerms := st.pagesPerms.set pageIdx
            (drop_perm (st.pagesPerms.getD pageIdx []) leaf img)
          pagesLocks := st.pagesLocks.set pageIdx
            (drop_locks (st.pagesLocks.getD pageIdx []) leaf img)
          cropStates := dict_set st.cropStates img false
          forcedAspects := insert img st.forcedAspects }, .done) := by
  have hne : ¬(st.pagesPerms.getD pageIdx []).isEmpty := by
    rcases h : st.pagesPerms.getD pageIdx [] with _ | _
    · rw [h] at hleaf; simp at hleaf
    · simp
  have hr : ¬st.pagesRoots.isEmpty := by
    rcases h : st.pagesRoots with _ | _
    · rw [h] at hpage; simp at hpage
    · simp
  unfold handle_drop
  rw [if_neg (by push_neg; exact ⟨by simpa using hr, by omega, by simpa using hne⟩)]
  rw [if_neg (by push_neg; constructor <;> omega)]
  rw [if_neg (by push_neg; constructor <;> omega)]
  simp

theorem list_getD_set_self {α : Type} (l : List α) (n : Nat) (a d : α)
    (h : n < l.length) : (l.set n a).getD n d = a := by
  rw [List.getD_eq_getElem _ _ (by simpa using h)]
  simp [List.getElem_set]

/-- No image index is the value of two locks with distinct keys on the same
page: invariant 3 of the specification. -/
def locks_value_injective (st : EngineState) : Prop :=
  ∀ d ∈ st.pagesLocks, ∀ p ∈ d, ∀ q ∈ d, p.2 = q.2 → p.1 = q.1

instance (st : EngineState) : Decidable (locks_value_injective st) := by
  unfold locks_value_injective
  infer_instance

theorem locks_value_injective_drop (st : EngineState) (pageIdx : Nat)
    (leafId imgIdx : Int) (h : locks_value_injective st) :
    locks_value_injective (handle_drop st pageIdx leafId imgIdx).1 := by
  unfold handle_drop
  split
  · exact h
  · split
    · exact h
    · split
      · exact h
      · intro d hd p hp q hq hev
        simp only at hd
        rcases List.mem_or_eq_of_mem_set hd with hd2 | rfl
        · exact h d hd2 p hp q hq hev
        · unfold drop_locks at hp hq
          have hmemloc : ∀ r : Nat × Nat,
              r ∈ (st.pagesLocks.getD pageIdx []).filter
                  (fun p => decide ¬(p.1 ≠ leafId.toNat ∧ p.2 = imgIdx.toNat)) →
              r ∈ st.pagesLocks.getD pageIdx [] ∧
                ¬(r.1 ≠ leafId.toNat ∧ r.2 = imgIdx.toNat) := by
            intro r hr
            have h1 := List.mem_filter.mp hr
            exact ⟨h1.1, of_decide_eq_true h1.2⟩
          rcases mem_dict_set hp with rfl | hp2 <;>
            rcases mem_dict_set hq with rfl | hq2
          · rfl
          · rcases eq_or_ne q.1 leafId.toNat with hq1 | hq1
            · simpa using hq1.symm
            · exact absurd ⟨hq1, by simpa using hev.symm⟩ (hmemloc q hq2).2
          · rcases eq_or_ne p.1 leafId.toNat with hp1 | hp1
            · simpa using hp1
            · exact absurd ⟨hp1, by simpa using hev⟩ (hmemloc p hp2).2
          · have hp3 := (hmemloc p hp2).1
            have hq3 := (hmemloc q hq2).1
            by_cases hin : pageIdx < st.pagesLocks.length
            · have hmem : st.pagesLocks.getD pageIdx [] ∈ st.pagesLocks := by
                rw [List.getD_eq_getElem _ _ hin]
                exact List.getElem_mem hin
              exact h _ hmem p hp3 q hq3 hev
            · rw [List.getD_eq_default _ _ (by omega)] at hp3
              exact absurd hp3 (List.not_mem_nil p)

/-- A concrete sample engine state: `n` images, one page whose tree is
`build_full_tree 4 42`, permutation `[0, 1, 2, 3]`. -/
def sampleState (n : Nat) (locks : List (List (Nat × Nat))) : EngineState :=
  { imageCount := n
    folderName := "album"
    configText := "4"
    numPagesSpin := 1
    pageTitles := ["album 1"]
    currentPageIdx := 0
    pagesRoots := [(build_full_tree 4 42).getD Node.nil]
    pagesPerms := [[0, 1, 2, 3]]
    pagesLocks := locks
    cropStates := []
    forcedAspects := ∅ }

/-! ### Claims -/

/-- **C7**: serializing a snapshot and then restoring it reproduces the state
exactly: identical tree topology, identical permutations, an identical lock
map per page (keys coerced back to integers), an identical crop-state map and
an identical forced-aspect set (persisted as a sequence, restored as a
set). -/
theorem snapshot_roundtrip_exact (st : EngineState) :
    (restore_snapshot st (take_snapshot st)).pagesRoots = st.pagesRoots ∧
    (restore_snapshot st (take_snapshot st)).pagesPerms = st.pagesPerms ∧
    (restore_snapshot st (take_snapshot st)).pagesLocks = st.pagesLocks ∧
    (restore_snapshot st (take_snapshot st)).cropStates = st.cropStates ∧
    (restore_snapshot st (take_snapshot st)).forcedAspects = st.forcedAspects := by
  refine ⟨?_, rfl, ?_, ?_, ?_⟩
  · simp [restore_snapshot, take_snapshot, List.map_map, Function.comp_def,
      deserialize_serialize_tree]
  · simp [restore_snapshot, take_snapshot, pyInt]
  · simp [restore_snapshot, take_snapshot, pyInt]
  · simp [restore_snapshot, take_snapshot, Finset.sort_toFinset]

/-- **C8**: a lock/drop whose `leaf_id` or `image_index` is out of bounds for
the page's permutation or the image pool is a no-op: the operation fails with
`OutOfRange` and the state is returned unchanged. -/
theorem handle_drop_out_of_range (st : EngineState) (pageIdx : Nat)
    (leafId imgIdx : Int)
    (h : leafId < 0 ∨ ((st.pagesPerms.getD pageIdx []).length : Int) ≤ leafId ∨
        imgIdx < 0 ∨ (st.imageCount : Int) ≤ imgIdx) :
    handle_drop st pageIdx leafId imgIdx = (st, DropOutcome.outOfRange) := by
  unfold handle_drop
  split
  · rfl
  · split
    · rfl
    · split
      · rfl
      · rename_i h1 h2 h3
        push_neg at h2 h3
        rcases h with h | h | h | h
        · exact absurd h (by omega)
        · exact absurd h (by omega)
        · exact absurd h (by omega)
        · exact absurd h (by omega)

theorem handle_drop_out_of_range_witness :
    ((5 : Int) < 0 ∨ (((sampleState 4 []).pagesPerms.getD 0 []).length : Int) ≤ 5 ∨
        (0 : Int) < 0 ∨ ((sampleState 4 []).imageCount : Int) ≤ 0) ∧
      handle_drop (sampleState 4 []) 0 5 0 = (sampleState 4 [], DropOutcome.outOfRange) :=
  ⟨by decide, handle_drop_out_of_range (sampleState 4 []) 0 5 0 (by decide)⟩

/-- **C2**: for any sequence of lock/drop operations starting from a state
whose per-page lock maps carry no duplicated image value, after every
operation no image index appears as a lock value on more than one leaf of the
same page. -/
theorem apply_drops_locks_value_injective (st : EngineState)
    (ops : List (Nat × Int × Int)) (h : locks_value_injective st) :
    locks_value_injective (apply_drops st ops) := by
  induction ops generalizing st with
  | nil => exact h
  | cons op rest ih =>
      exact ih _ (locks_value_injective_drop st op.1 op.2.1 op.2.2 h)

theorem apply_drops_locks_value_injective_witness :
    locks_value_injective (sampleState 4 [[(0, 2)]]) ∧
      locks_value_injective
        (apply_drops (sampleState 4 [[(0, 2)]]) [(0, 1, 2), (0, 3, 2), (0, 1, 0)]) :=
  ⟨by decide,
    apply_drops_locks_value_injective (sampleState 4 [[(0, 2)]])
      [(0, 1, 2), (0, 3, 2), (0, 1, 0)] (by decide)⟩

/-- **C10** (implicit frame effect): every successful drop additionally sets
the dropped image's crop state to `False` (fit entire image) and inserts the
image into the forced-aspect set, so fields other than the page's permutation
and lock map do not stay unchanged under a drop. -/
theorem handle_drop_sets_crop_and_aspect (st : EngineState)
    (pageIdx leaf img : Nat)
    (hpage : pageIdx < st.pagesRoots.length)
    (hleaf : leaf < (st.pagesPerms.getD pageIdx []).length)
    (himg : img < st.imageCount) :
    dict_get? (handle_drop st pageIdx leaf img).1.cropStates img = some false ∧
      img ∈ (handle_drop st pageIdx leaf img).1.forcedAspects := by
  rw [handle_drop_eq_of_inbounds st pageIdx leaf img hpage hleaf himg]
  exact ⟨dict_get?_set_self _ _ _, Finset.mem_insert_self _ _⟩

/-- **C1**: for in-bounds `leaf` and `img`, a drop updates the page's
permutation by the swap-or-overwrite rule: if `img` already occupies some
leaf `j ≠ leaf` then the contents of leaves `j` and `leaf` are swapped,
otherwise leaf `leaf` is overwritten with `img` directly; the new lock map
sends `leaf` to `img`, and the silently displaced image gets no lock (every
lock of the result is the new binding or an old one).  Stated for
duplicate-free permutations, where "the leaf occupied by `img`" is well
defined. -/
theorem handle_drop_swap_or_overwrite (st : EngineState)
    (pageIdx leaf img : Nat)
    (hpage : pageIdx < st.pagesRoots.length)
    (hleaf : leaf < (st.pagesPerms.getD pageIdx []).length)
    (himg : img < st.imageCount)
    (hlock : pageIdx < st.pagesLocks.length)
    (hnodup : (st.pagesPerms.getD pageIdx []).Nodup) :
    (∀ j, j < (st.pagesPerms.getD pageIdx []).length → j ≠ leaf →
        (st.pagesPerms.getD pageIdx []).getD j 0 = img →
        (handle_drop st pageIdx leaf img).1.pagesPerms.getD pageIdx [] =
          ((st.pagesPerms.getD pageIdx []).set leaf img).set j
            ((st.pagesPerms.getD pageIdx []).getD leaf 0)) ∧
    ((∀ j, j < (st.pagesPerms.getD pageIdx []).length → j ≠ leaf →
        (st.pagesPerms.getD pageIdx []).getD j 0 ≠ img) →
        (handle_drop st pageIdx leaf img).1.pagesPerms.getD pageIdx [] =
          (st.pagesPerms.getD pageIdx []).set leaf img) ∧
    dict_get? ((handle_drop st pageIdx leaf img).1.pagesLocks.getD pageIdx [])
        leaf = some img ∧
    (∀ q ∈ (handle_drop st pageIdx leaf img).1.pagesLocks.getD pageIdx [],
        q = (leaf, img) ∨ q ∈ st.pagesLocks.getD pageIdx []) := by
  have hpp : pageIdx < st.pagesPerms.length := by
    by_contra hc
    rw [List.getD_eq_default _ _ (by omega)] at hleaf
    simp at hleaf
  rw [handle_drop_eq_of_inbounds st pageIdx leaf img hpage hleaf himg]
  simp only
  rw [list_getD_set_self _ _ _ _ hpp, list_getD_set_self _ _ _ _ hlock]
  refine ⟨?_, ?_, dict_get?_set_self _ _ _, ?_⟩
  · intro j hj hjne hjv
    rw [List.getD_eq_getElem _ _ hj] at hjv
    have hmem : img ∈ st.pagesPerms.getD pageIdx [] := by
      rw [← hjv]
      exact List.getElem_mem hj
    have hidx : (st.pagesPerms.getD pageIdx []).indexOf img <
        (st.pagesPerms.getD pageIdx []).length :=
      List.indexOf_lt_length.mpr hmem
    have hval : (st.pagesPerms.getD pageIdx
        [])[(st.pagesPerms.getD pageIdx []).indexOf img] = img :=
      List.getElem_indexOf hidx
    have hj2 : (st.pagesPerms.getD pageIdx []).indexOf img = j :=
      (List.Nodup.getElem_inj_iff hnodup).mp (hval.trans hjv.symm)
    rw [drop_perm, if_pos hmem, if_pos (by rw [hj2]; exact hjne), hj2,
      List.getD_eq_getElem _ _ hj, hjv]
  · intro hno
    by_cases hmem : img ∈ st.pagesPerms.getD pageIdx []
    · have hidx : (st.pagesPerms.getD pageIdx []).indexOf img <
          (st.pagesPerms.getD pageIdx []).length :=
        List.indexOf_lt_length.mpr hmem
      have hval : (st.pagesPerms.getD pageIdx
          [])[(st.pagesPerms.getD pageIdx []).indexOf img] = img :=
        List.getElem_indexOf hidx
      have hleafidx : (st.pagesPerms.getD pageIdx []).indexOf img = leaf := by
        by_contra hne
        exact hno _ hidx hne
          (by rw [List.getD_eq_getElem _ _ hidx]; exact hval)
      subst hleafidx
      rw [drop_perm, if_pos hmem, if_neg (by simp)]
      have hset := list_set_getElem_self (st.pagesPerms.getD pageIdx [])
        ((st.pagesPerms.getD pageIdx []).indexOf img) hidx
      rw [hval] at hset
      exact hset.symm
    · rw [drop_perm, if_neg hmem]
  · intro q hq
    unfold drop_locks at hq
    rcases mem_dict_set hq with h1 | h1
    · exact Or.inl h1
    · exact Or.inr (List.mem_of_mem_filter h1)

theorem handle_drop_swap_or_overwrite_witness :
    (0 < (sampleState 4 [[]]).pagesRoots.length ∧
      2 < ((sampleState 4 [[]]).pagesPerms.getD 0 []).length ∧
      1 < (sampleState 4 [[]]).imageCount ∧
      0 < (sampleState 4 [[]]).pagesLocks.length ∧
      ((sampleState 4 [[]]).pagesPerms.getD 0 []).Nodup) ∧
    ((handle_drop (sampleState 4 [[]]) 0 2 1).1.pagesPerms.getD 0 [] =
        [0, 2, 1, 3] ∧
      dict_get? ((handle_drop (sampleState 4 [[]]) 0 2 1).1.pagesLocks.getD 0 [])
        2 = some 1) := by
  refine ⟨by decide, ?_, ?_⟩
  · have h := handle_drop_swap_or_overwrite (sampleState 4 [[]]) 0 2 1
      (by decide) (by decide) (by decide) (by decide) (by decide)
    have hA := h.1 1 (by decide) (by decide) (by decide)
    exact hA.trans (by decide)
  · exact (handle_drop_swap_or_overwrite (sampleState 4 [[]]) 0 2 1
      (by decide) (by decide) (by decide) (by decide) (by decide)).2.2.1

/-- **C4**: a slot specification that fails to parse or contains a count that
is not a power of two makes `init_trees` fail (the embedded
`InvalidConfiguration`) and, given a prior valid state (nonempty roots),
leaves pages, trees, permutations, locks and titles unchanged — the engine is
never left half-updated. -/
theorem init_trees_invalid_config_keeps_state (st : EngineState) (seed : Nat)
    (spin2 : Nat) (hvalid : st.pagesRoots ≠ [])
    (hfail : parse_page_config st.configText st.numPagesSpin =
      ParseOutcome.fail spin2) :
    (init_trees st seed).pagesRoots = st.pagesRoots ∧
    (init_trees st seed).pagesPerms = st.pagesPerms ∧
    (init_trees st seed).pagesLocks = st.pagesLocks ∧
    (init_trees st seed).pageTitles = st.pageTitles ∧
    (init_trees st seed).cropStates = st.cropStates ∧
    (init_trees st seed).forcedAspects = st.forcedAspects := by
  have hne : ¬st.pagesRoots.isEmpty := by
    rcases h : st.pagesRoots with _ | _
    · exact absurd h hvalid
    · simp
  unfold init_trees
  by_cases h0 : st.imageCount = 0
  · rw [if_pos h0]
    exact ⟨rfl, rfl, rfl, rfl, rfl, rfl⟩
  · rw [if_neg h0, hfail]
    simp only [if_neg hne]
    exact ⟨trivial, trivial, trivial, trivial, trivial, trivial⟩

/-- A two-image state with one page and the non-power-of-two slot spec
`"3"`. -/
def badConfigState : EngineState :=
  { sampleState 4 [[]] with configText := "3" }

theorem parse_ok_all_pow2 {txt : String} {spin : Nat} {counts : List Int}
    {spin2 : Nat}
    (h : parse_page_config txt spin = ParseOutcome.ok counts spin2) :
    counts.all (fun c => is_power_of_two c) = true := by
  unfold parse_page_config at h
  split at h
  · split at h
    · exact absurd h (by simp)
    · split at h
      · cases h
        assumption
      · exact absurd h (by simp)
  · split at h
    · exact absurd h (by simp)
    · split at h
      · cases h
        assumption
      · exact absurd h (by simp)

theorem build_full_tree_isSome {c : Int} (h : is_power_of_two c = true)
    (s : Nat) : (build_full_tree c s).isSome := by
  rw [build_full_tree, if_pos h]
  rfl

theorem page_builds_no_assert {counts : List Int}
    (hpow : counts.all (fun c => is_power_of_two c) = true) :
    (page_builds counts).any (·.isNone) = false := by
  rw [Bool.eq_false_iff]
  intro hc
  rw [List.any_eq_true] at hc
  obtain ⟨o, ho, hno⟩ := hc
  obtain ⟨ic, hic, rfl⟩ := List.mem_map.mp ho
  have h2 : ic.2 ∈ counts := by
    have h3 := List.mem_enum_iff_getElem?.mp hic
    rw [List.getElem?_eq_some] at h3
    obtain ⟨hlt, heq⟩ := h3
    exact heq ▸ List.getElem_mem hlt
  have h4 := List.all_eq_true.mp hpow _ h2
  have h5 := build_full_tree_isSome (by simpa using h4) (42 + ic.1)
  simp only [Option.isNone_iff_eq_none] at hno
  rw [hno] at h5
  simp at h5

theorem init_trees_invalid_config_keeps_state_witness :
    (badConfigState.pagesRoots ≠ [] ∧
      parse_page_config badConfigState.configText badConfigState.numPagesSpin =
        ParseOutcome.fail 1) ∧
    ((init_trees badConfigState 0).pagesRoots = badConfigState.pagesRoots ∧
      (init_trees badConfigState 0).pagesPerms = badConfigState.pagesPerms ∧
      (init_trees badConfigState 0).pagesLocks = badConfigState.pagesLocks ∧
      (init_trees badConfigState 0).pageTitles = badConfigState.pageTitles ∧
      (init_trees badConfigState 0).cropStates = badConfigState.cropStates ∧
      (init_trees badConfigState 0).forcedAspects =
        badConfigState.forcedAspects) :=
  ⟨⟨by decide, by decide⟩,
    init_trees_invalid_config_keeps_state badConfigState 0 1
      (by decide) (by decide)⟩

/-- **C5** (amended): after a reconfiguration with a valid slot
specification, when the number of pages is unchanged every existing lock
whose leaf id is within the page's new leaf count is preserved and every lock
outside the new bounds is dropped; but when the number of pages changes,
every lock is dropped — including locks on pages that still exist and whose
leaf ids are within bounds. -/
theorem init_trees_lock_preservation (st : EngineState) (seed : Nat)
    (counts : List Int) (spin2 : Nat)
    (himg : ¬st.imageCount = 0)
    (hok : parse_page_config st.configText st.numPagesSpin =
      ParseOutcome.ok counts spin2)
    (hne : ¬counts.isEmpty) :
    (st.pagesLocks.length = counts.length →
      (init_trees st seed).pagesLocks =
        st.pagesLocks.enum.map (fun id =>
          id.2.filter (fun p =>
            decide (p.1 < (counts.map Int.toNat).getD id.1 0)))) ∧
    (st.pagesLocks.length ≠ counts.length →
      (init_trees st seed).pagesLocks =
        List.replicate counts.length ([] : List (Nat × Nat))) := by
  have hpow := parse_ok_all_pow2 hok
  have hb := page_builds_no_assert hpow
  have heff : eff_counts counts = counts := by
    rw [eff_counts, if_neg (by simpa using hne)]
  have hb2 : ((page_builds (eff_counts counts)).any fun x => x.isNone) =
      false := by rw [heff]; exact hb
  have hmain : (init_trees st seed).pagesLocks =
      new_locks st.pagesLocks ((eff_counts counts).map Int.toNat) := by
    unfold init_trees
    rw [if_neg himg, hok]
    show (init_trees_core { st with numPagesSpin := spin2 }
      counts seed).pagesLocks = _
    unfold init_trees_core
    rw [hb2]
    simp only [Bool.false_eq_true, if_false]
  rw [heff] at hmain
  constructor
  · intro hlen
    rw [hmain]
    unfold new_locks
    rw [if_neg (by simpa using hlen)]
  · intro hlen
    rw [hmain]
    unfold new_locks
    rw [if_pos (by simpa using hlen)]
    simp

/-- Two pages of two leaves with a lock on page 0, about to be reconfigured
into a single 4-leaf page. -/
def twoPageState : EngineState :=
  { imageCount := 4
    folderName := "album"
    configText := "4"
    numPagesSpin := 1
    pageTitles := ["album 1", "album 2"]
    currentPageIdx := 0
    pagesRoots := [(build_full_tree 2 42).getD Node.nil,
      (build_full_tree 2 43).getD Node.nil]
    pagesPerms := [[0, 1], [2, 3]]
    pagesLocks := [[(0, 0)], []]
    cropStates := []
    forcedAspects := ∅ }

/-- **C5** counterexample: reconfiguring `twoPageState` (two pages, a lock
`0 ↦ 0` on page 0) with the valid spec `"4"` (one 4-leaf page): page index 0
still exists in the new configuration and leaf 0 is within the new leaf
count 4, yet the lock is dropped because the number of pages changed. -/
theorem init_trees_drops_inbounds_lock_on_page_count_change :
    parse_page_config twoPageState.configText twoPageState.numPagesSpin =
      ParseOutcome.ok [4] 1 ∧
    dict_get? (twoPageState.pagesLocks.getD 0 []) 0 = some 0 ∧
    (0 : Nat) < 4 ∧ (0 : Nat) < 1 ∧
    (init_trees twoPageState 0).pagesLocks = [[]] := by
  decide

/-- One 4-leaf page with an in-bounds lock `0 ↦ 1` and an out-of-bounds lock
`5 ↦ 2`. -/
def lockFilterState : EngineState :=
  sampleState 4 [[(0, 1), (5, 2)]]

theorem init_trees_lock_preservation_witness :
    (¬lockFilterState.imageCount = 0 ∧
      parse_page_config lockFilterState.configText
        lockFilterState.numPagesSpin = ParseOutcome.ok [4] 1 ∧
      ¬([4] : List Int).isEmpty) ∧
    (init_trees lockFilterState 0).pagesLocks = [[(0, 1)]] := by
  refine ⟨⟨by decide, by decide, by decide⟩, ?_⟩
  have h := (init_trees_lock_preservation lockFilterState 0 [4] 1
    (by decide) (by decide) (by decide)).1 (by decide)
  exact h.trans (by decide)

/-- Three mandatory images on a single two-slot page whose tree carries no
locked node flags. -/
def overMandState : EngineState :=
  { imageCount := 3
    folderName := "album"
    configText := "2"
    numPagesSpin := 1
    pageTitles := ["album 1"]
    currentPageIdx := 0
    pagesRoots := [(build_full_tree 2 99).getD Node.nil]
    pagesPerms := [[0, 1]]
    pagesLocks := [[]]
    cropStates := []
    forcedAspects := ∅ }

/-- **C3** counterexample: with three mandatory images and two slots the
dispatch fails with `OverMandatory`, but the engine state has been mutated:
no tree node reports a lock, so the trees were rebuilt with fresh seeds
before the validation ran, and the resulting roots differ from the prior
ones. -/
theorem start_optimization_over_mandatory_mutates_trees :
    total_slots overMandState <
      (mandatory_set overMandState [true, true, true]).card ∧
    (start_optimization overMandState [true, true, true] [true, true, true]
      0).2 = OptimOutcome.overMandatory ∧
    (start_optimization overMandState [true, true, true] [true, true, true]
      0).1.pagesRoots ≠ overMandState.pagesRoots := by
  decide

/-- **C3** (amended): when the guard passes, an over-mandatory request fails
with `OverMandatory` and an undersupplied request with `UnderSupply`; in both
cases no worker request is dispatched and the permutations, locks, crop
states and forced-aspect set are unchanged; the trees are unchanged when
some tree node reports a lock, but otherwise they have already been rebuilt
with fresh seeds before the validation, so they may change even on failure.
(The unused hypothesis `_hsafe` restricts the statement to states where the
pre-validation rebuild cannot trip the tree builder's power-of-two assertion,
which in Python would abort the handler instead.) -/
theorem start_optimization_failure_no_dispatch_no_perm_lock_change
    (st : EngineState) (mandFlags poolFlags : List Bool) (seed : Nat)
    (hroots : ¬st.pagesRoots.isEmpty) (hperms : ¬st.pagesPerms.isEmpty)
    (_hsafe : any_tree_locked st = true ∨
      (page_counts_of st).all (fun c => is_power_of_two (Int.ofNat c)) = true) :
    (total_slots st < (mandatory_set st mandFlags).card →
      (start_optimization st mandFlags poolFlags seed).2 =
        OptimOutcome.overMandatory) ∧
    ((mandatory_set st mandFlags).card ≤ total_slots st →
      (mandatory_set st mandFlags).card +
          (optional_list st mandFlags poolFlags).length < total_slots st →
      (start_optimization st mandFlags poolFlags seed).2 =
        OptimOutcome.underSupply) ∧
    ((start_optimization st mandFlags poolFlags seed).1.pagesPerms =
        st.pagesPerms ∧
      (start_optimization st mandFlags poolFlags seed).1.pagesLocks =
        st.pagesLocks ∧
      (start_optimization st mandFlags poolFlags seed).1.cropStates =
        st.cropStates ∧
      (start_optimization st mandFlags poolFlags seed).1.forcedAspects =
        st.forcedAspects) ∧
    (any_tree_locked st = true →
      (start_optimization st mandFlags poolFlags seed).1.pagesRoots =
        st.pagesRoots) ∧
    (any_tree_locked st = false →
      (start_optimization st mandFlags poolFlags seed).1.pagesRoots =
        (fresh_roots (page_counts_of st) seed).1) := by
  unfold start_optimization
  rw [if_neg (by push_neg; exact ⟨hroots, hperms⟩)]
  refine ⟨?_, ?_, ?_, ?_, ?_⟩
  · intro hover
    rw [if_pos hover]
  · intro hle hunder
    rw [if_neg (by omega), if_pos hunder]
  · split
    · exact ⟨rfl, rfl, rfl, rfl⟩
    · split
      · exact ⟨rfl, rfl, rfl, rfl⟩
      · exact ⟨rfl, rfl, rfl, rfl⟩
  · intro hlocked
    have hroots2 : rebuilt_roots st seed = st.pagesRoots := by
      rw [rebuilt_roots, if_pos hlocked]
    split
    · exact hroots2
    · split
      · exact hroots2
      · exact hroots2
  · intro hfree
    have hroots2 : rebuilt_roots st seed =
        (fresh_roots (page_counts_of st) seed).1 := by
      rw [rebuilt_roots, if_neg (by simp [hfree])]
    split
    · exact hroots2
    · split
      · exact hroots2
      · exact hroots2

theorem start_optimization_failure_no_dispatch_witness :
    (¬overMandState.pagesRoots.isEmpty ∧ ¬overMandState.pagesPerms.isEmpty ∧
      ((page_counts_of overMandState).all
        (fun c => is_power_of_two (Int.ofNat c)) = true) ∧
      total_slots overMandState <
        (mandatory_set overMandState [true, true, true]).card) ∧
    ((start_optimization overMandState [true, true, true] [true, true, true]
        7).2 = OptimOutcome.overMandatory ∧
      (start_optimization overMandState [true, true, true] [true, true, true]
        7).1.pagesPerms = overMandState.pagesPerms ∧
      (start_optimization overMandState [true, true, true] [true, true, true]
        7).1.pagesLocks = overMandState.pagesLocks) := by
  refine ⟨⟨by decide, by decide, by decide, by decide⟩, ?_, ?_, ?_⟩
  · exact (start_optimization_failure_no_dispatch_no_perm_lock_change
      overMandState [true, true, true] [true, true, true] 7
      (by decide) (by decide) (Or.inr (by decide))).1 (by decide)
  · exact (start_optimization_failure_no_dispatch_no_perm_lock_change
      overMandState [true, true, true] [true, true, true] 7
      (by decide) (by decide) (Or.inr (by decide))).2.2.1.1
  · exact (start_optimization_failure_no_dispatch_no_perm_lock_change
      overMandState [true, true, true] [true, true, true] 7
      (by decide) (by decide) (Or.inr (by decide))).2.2.1.2.1

/-- **C6** counterexample: a page whose lock map is non-empty but whose tree
carries no locked node flags (the invariable situation after `handle_drop`,
which never sets node flags): the dispatch still rebuilds all trees. -/
theorem start_optimization_rebuilds_despite_lock_map :
    (sampleState 4 [[(0, 1)]]).pagesLocks.getD 0 [] ≠ [] ∧
    any_tree_locked (sampleState 4 [[(0, 1)]]) = false ∧
    (start_optimization (sampleState 4 [[(0, 1)]]) [false, false, false, false]
      [true, true, true, true] 0).1.pagesRoots ≠
      (sampleState 4 [[(0, 1)]]).pagesRoots := by
  decide

/-- **C6** (amended): when an optimization run is dispatched, the trees are
kept as-is iff some tree node's locked flag is set (some internal node
reports a locked descendant); otherwise all trees are rebuilt with fresh
seeds before dispatch.  The per-page lock maps are not consulted, so a
non-empty lock map alone does not keep the trees.  (The unused hypothesis
`_hsafe` restricts the statement to states where the rebuild cannot trip the
tree builder's power-of-two assertion, which in Python would abort the
handler instead.) -/
theorem start_optimization_tree_rebuild_rule (st : EngineState)
    (mandFlags poolFlags : List Bool) (seed : Nat)
    (hroots : ¬st.pagesRoots.isEmpty) (hperms : ¬st.pagesPerms.isEmpty)
    (_hsafe : any_tree_locked st = true ∨
      (page_counts_of st).all (fun c => is_power_of_two (Int.ofNat c)) = true) :
    (any_tree_locked st = true →
      (start_optimization st mandFlags poolFlags seed).1.pagesRoots =
        st.pagesRoots) ∧
    (any_tree_locked st = false →
      (start_optimization st mandFlags poolFlags seed).1.pagesRoots =
        (fresh_roots (page_counts_of st) seed).1) := by
  unfold start_optimization
  rw [if_neg (by push_neg; exact ⟨hroots, hperms⟩)]
  constructor
  · intro hlocked
    have hroots2 : rebuilt_roots st seed = st.pagesRoots := by
      rw [rebuilt_roots, if_pos hlocked]
    split
    · exact hroots2
    · split
      · exact hroots2
      · exact hroots2
  · intro hfree
    have hroots2 : rebuilt_roots st seed =
        (fresh_roots (page_counts_of st) seed).1 := by
      rw [rebuilt_roots, if_neg (by simp [hfree])]
    split
    · exact hroots2
    · split
      · exact hroots2
      · exact hroots2

/-- A two-leaf tree whose left leaf has its locked flag set. -/
def lockedLeafTree : Node :=
  Node.mk (some Dir.horizontal) 500 Option.none false
    (Node.mk Option.none 500 (some 0) true Node.nil Node.nil)
    (Node.mk Option.none 500 (some 1) false Node.nil Node.nil)

/-- A state whose single page tree contains a locked leaf. -/
def lockedTreeState : EngineState :=
  { sampleState 4 [[]] with
      pagesRoots := [lockedLeafTree]
      pagesPerms := [[0, 1]] }

theorem isPow2Go_pow2 : ∀ f n, isPow2Go f n = true → ∃ k, n = 2 ^ k := by
  intro f
  induction f with
  | zero => intro n h; simp [isPow2Go] at h
  | succ f ih =>
      intro n h
      rw [isPow2Go] at h
      by_cases h1 : n = 1
      · exact ⟨0, by simpa using h1⟩
      · rw [if_neg h1] at h
        by_cases h2 : n % 2 = 0 ∧ n ≠ 0
        · rw [if_pos h2] at h
          obtain ⟨k, hk⟩ := ih _ h
          exact ⟨k + 1, by rw [Nat.pow_succ]; omega⟩
        · rw [if_neg h2] at h
          exact absurd h (by simp)

theorem is_power_of_two_toNat {c : Int} (h : is_power_of_two c = true) :
    ∃ k, c.toNat = 2 ^ k := by
  rw [is_power_of_two, Bool.and_eq_true] at h
  exact isPow2Go_pow2 _ _ h.2

theorem buildBalancedGo_ne_nil (f count offset s : Nat) :
    buildBalancedGo f count offset s ≠ Node.nil := by
  cases f with
  | zero => simp [buildBalancedGo]
  | succ f =>
      rw [buildBalancedGo]
      split
      · simp
      · simp [buildSplit]

theorem leaf_ids_buildSplit (l r : Node) (s1 s2 : Nat) (hl : l ≠ Node.nil) :
    leaf_ids (buildSplit l r s1 s2) = leaf_ids l ++ leaf_ids r := by
  rw [buildSplit, leaf_ids, if_neg (by tauto)]

theorem leaf_ids_buildBalancedGo :
    ∀ k f offset s, k ≤ f →
      leaf_ids (buildBalancedGo f (2 ^ k) offset s) =
        (List.range' offset (2 ^ k)).map (fun i => some (Int.ofNat i)) := by
  intro k
  induction k with
  | zero =>
      intro f offset s _
      cases f with
      | zero => simp [buildBalancedGo, leaf_ids, List.range']
      | succ f =>
          rw [buildBalancedGo, if_pos (by norm_num)]
          simp [leaf_ids, List.range']
  | succ k ih =>
      intro f offset s hf
      rcases f with _ | f
      · omega
      · have h2 : (0 : Nat) < 2 ^ k := Nat.two_pow_pos k
        have h3 : 2 ^ (k + 1) / 2 = 2 ^ k := by rw [Nat.pow_succ]; omega
        rw [buildBalancedGo, if_neg (by rw [Nat.pow_succ]; omega), h3]
        rw [leaf_ids_buildSplit _ _ _ _ (buildBalancedGo_ne_nil _ _ _ _)]
        rw [ih f offset _ (by omega), ih f (offset + 2 ^ k) _ (by omega)]
        rw [← List.map_append]
        have h4 := List.range'_append offset (2 ^ k) (2 ^ k) 1
        simp only [one_mul] at h4
        rw [h4]
        have h5 : 2 ^ k + 2 ^ k = 2 ^ (k + 1) := by rw [Nat.pow_succ]; omega
        rw [h5]

theorem leaf_ids_dedup_build_full_tree {c : Int}
    (h : is_power_of_two c = true) (s : Nat) :
    ((leaf_ids ((build_full_tree c s).getD Node.nil)).dedup).length =
      c.toNat := by
  obtain ⟨k, hk⟩ := is_power_of_two_toNat h
  rw [build_full_tree, if_pos h]
  simp only [Option.getD_some]
  rw [hk]
  rw [leaf_ids_buildBalancedGo k (2 ^ k) 0 s (Nat.le_of_lt (Nat.lt_two_pow k))]
  have hnodup : ((List.range' 0 (2 ^ k)).map
      (fun i => some (Int.ofNat i))).Nodup := by
    apply List.Nodup.map
    · intro a b hab
      simpa using hab
    · exact List.nodup_range' ..
  rw [List.dedup_eq_self.mpr hnodup]
  simp

theorem perm_cons_eraseIdx {α : Type} :
    ∀ (l : List α) (i : Nat) (h : i < l.length),
      List.Perm (l[i] :: l.eraseIdx i) l := by
  intro l
  induction l with
  | nil => intro i h; simp at h
  | cons a t ih =>
      intro i h
      cases i with
      | zero => simp
      | succ i =>
          have h2 : i < t.length := by simpa using h
          simp only [List.getElem_cons_succ, List.eraseIdx_cons_succ]
          exact List.Perm.trans (List.Perm.swap a t[i] (t.eraseIdx i))
            (List.Perm.cons a (ih i h2))

theorem shuffleGo_perm : ∀ f (l : List Nat) s, l.length ≤ f →
    List.Perm (shuffleGo f l s).1 l := by
  intro f
  induction f with
  | zero =>
      intro l s h
      have h2 : l = [] := List.eq_nil_of_length_eq_zero (by omega)
      subst h2
      exact List.Perm.refl _
  | succ f ih =>
      intro l s h
      rw [shuffleGo]
      by_cases hl : l.isEmpty
      · rw [if_pos hl]
      · rw [if_neg hl]
        have hlen : 0 < l.length := by
          rcases l with _ | _
          · simp at hl
          · simp
        have hj : (randNat s l.length).1 < l.length := by
          rw [randNat]
          exact Nat.mod_lt _ hlen
        have hrest : (l.eraseIdx (randNat s l.length).1).length ≤ f := by
          rw [List.length_eraseIdx]
          rw [if_pos hj]
          omega
        refine List.Perm.trans
          (List.Perm.cons _ (ih (l.eraseIdx (randNat s l.length).1)
            (randNat s l.length).2 hrest)) ?_
        rw [List.getD_eq_getElem _ _ hj]
        exact perm_cons_eraseIdx l _ hj

theorem shuffleList_perm (l : List Nat) (s : Nat) :
    List.Perm (shuffleList l s).1 l :=
  shuffleGo_perm l.length l s (Nat.le_refl _)

theorem padPermGo_of_ge (f : Nat) (perm : List Nat) (count : Nat)
    (pool : List Nat) (s : Nat) (h : count ≤ perm.length) :
    padPermGo f perm count pool s = (perm, s) := by
  cases f with
  | zero => rfl
  | succ f => rw [padPermGo, if_neg (by omega)]

theorem padPermGo_length : ∀ f (perm : List Nat) count pool s,
    count ≤ perm.length + f →
    ((padPermGo f perm count pool s).1).length = max perm.length count := by
  intro f
  induction f with
  | zero =>
      intro perm count pool s h
      simp only [padPermGo]
      omega
  | succ f ih =>
      intro perm count pool s h
      rw [padPermGo]
      by_cases hlt : perm.length < count
      · rw [if_pos hlt]
        rw [ih _ _ _ _ (by simp; omega)]
        simp
        omega
      · rw [if_neg hlt]
        simp only
        omega

theorem padPermGo_mem : ∀ f (perm : List Nat) count pool s x, pool ≠ [] →
    x ∈ (padPermGo f perm count pool s).1 → x ∈ perm ∨ x ∈ pool := by
  intro f
  induction f with
  | zero =>
      intro perm count pool s x _ hx
      exact Or.inl hx
  | succ f ih =>
      intro perm count pool s x hpool hx
      rw [padPermGo] at hx
      by_cases hlt : perm.length < count
      · rw [if_pos hlt] at hx
        rcases ih _ _ _ _ x hpool hx with h1 | h1
        · rcases List.mem_append.mp h1 with h2 | h2
          · exact Or.inl h2
          · right
            have hplen : (randNat s pool.length).1 < pool.length := by
              rw [randNat]
              exact Nat.mod_lt _ (List.length_pos.mpr hpool)
            have h3 : x = pool.getD (randNat s pool.length).1 0 := by
              simpa using h2
            rw [h3, List.getD_eq_getElem _ _ hplen]
            exact List.getElem_mem hplen
        · exact Or.inr h1
      · rw [if_neg hlt] at hx
        exact Or.inl hx

theorem buildPermsGo_map_length :
    ∀ (counts pool : List Nat) (total cur s : Nat), pool.length = total →
      ((buildPermsGo counts pool total cur s).1).map List.length = counts := by
  intro counts
  induction counts with
  | nil => intro pool total cur s _; rfl
  | cons count rest ih =>
      intro pool total cur s h
      rw [buildPermsGo]
      simp only [List.map_cons, List.cons.injEq]
      refine ⟨?_, ih pool total (cur + count) _ h⟩
      rw [padPerm]
      have hslice : ((pool.drop cur).take
          (min (cur + count) total - cur)).length =
          min (cur + count) total - cur := by
        rw [List.length_take, List.length_drop, h]
        omega
      rw [padPermGo_length count _ count pool s (by rw [hslice]; omega)]
      rw [hslice]
      omega

theorem buildPermsGo_flatten :
    ∀ (counts pool : List Nat) (total cur s : Nat), pool.length = total →
      counts.sum + cur ≤ total →
      ((buildPermsGo counts pool total cur s).1).flatten =
        (pool.drop cur).take counts.sum := by
  intro counts
  induction counts with
  | nil => intro pool total cur s _ _; rfl
  | cons count rest ih =>
      intro pool total cur s h hsum
      rw [buildPermsGo]
      simp only [List.flatten_cons]
      have hsum2 : count + rest.sum + cur ≤ total := by
        simpa [List.sum_cons] using hsum
      have hmin : min (cur + count) total = cur + count := by omega
      have hslice : ((pool.drop cur).take
          (min (cur + count) total - cur)).length = count := by
        rw [List.length_take, List.length_drop, h]
        omega
      rw [padPerm, padPermGo_of_ge _ _ _ _ _ (by rw [hslice])]
      rw [ih pool total (cur + count) _ h (by omega)]
      rw [hmin, show cur + count - cur = count from by omega]
      have hdd : pool.drop (cur + count) = (pool.drop cur).drop count := by
        rw [List.drop_drop]
      rw [hdd]
      simp only [List.sum_cons]
      rw [List.take_add]

theorem buildPermsGo_mem :
    ∀ (counts pool : List Nat) (total cur s : Nat) (p : List Nat) (x : Nat),
      pool ≠ [] → p ∈ (buildPermsGo counts pool total cur s).1 → x ∈ p →
      x ∈ pool := by
  intro counts
  induction counts with
  | nil =>
      intro pool total cur s p x _ hp _
      simp [buildPermsGo] at hp
  | cons count rest ih =>
      intro pool total cur s p x hpool hp hx
      rw [buildPermsGo] at hp
      simp only [List.mem_cons] at hp
      rcases hp with rfl | hp
      · rw [padPerm] at hx
        rcases padPermGo_mem _ _ _ _ _ x hpool hx with h1 | h1
        · exact List.mem_of_mem_drop (List.mem_of_mem_take h1)
        · exact h1
      · exact ih pool total (cur + count) _ p x hpool hp hx

/-- **C9**: after every successful reconfiguration, every page's permutation
length equals the page's leaf count; the permutations are derived by
shuffling the full image-index pool once (the shuffled pool is a permutation
of `0 .. imageCount - 1`) and slicing contiguous runs of the per-page counts
in order: when the pool covers the total slot demand the concatenation of
the page permutations is exactly the leading slice of the shuffled pool, and
when it is smaller the shortfall is padded by re-sampling pool indices (every
permutation entry is a valid pool index, duplicates possible, lengths still
match). -/
theorem init_trees_perm_lengths_and_slicing (st : EngineState) (seed : Nat)
    (counts : List Int) (spin2 : Nat)
    (himg : ¬st.imageCount = 0)
    (hok : parse_page_config st.configText st.numPagesSpin =
      ParseOutcome.ok counts spin2)
    (hne : ¬counts.isEmpty) :
    (∀ i, i < counts.length →
      ((init_trees st seed).pagesPerms.getD i []).length =
        ((leaf_ids ((init_trees st seed).pagesRoots.getD i
          Node.nil)).dedup).length) ∧
    List.Perm (shuffleList (List.range st.imageCount) seed).1
      (List.range st.imageCount) ∧
    ((counts.map Int.toNat).sum ≤ st.imageCount →
      ((init_trees st seed).pagesPerms).flatten =
        (shuffleList (List.range st.imageCount) seed).1.take
          ((counts.map Int.toNat).sum)) ∧
    (∀ p ∈ (init_trees st seed).pagesPerms, ∀ x ∈ p, x < st.imageCount) := by
  have hpow := parse_ok_all_pow2 hok
  have heff : eff_counts counts = counts := by
    rw [eff_counts, if_neg (by simpa using hne)]
  have hb2 : ((page_builds (eff_counts counts)).any fun x => x.isNone) =
      false := by rw [heff]; exact page_builds_no_assert hpow
  have hperm : List.Perm (shuffleList (List.range st.imageCount) seed).1
      (List.range st.imageCount) := shuffleList_perm _ _
  have hpool : (shuffleList (List.range st.imageCount) seed).1.length =
      st.imageCount := by
    rw [List.Perm.length_eq hperm, List.length_range]
  have hperms : (init_trees st seed).pagesPerms =
      new_perms (counts.map Int.toNat) st.imageCount seed := by
    unfold init_trees
    rw [if_neg himg, hok]
    show (init_trees_core { st with numPagesSpin := spin2 }
      counts seed).pagesPerms = _
    unfold init_trees_core
    rw [hb2]
    simp only [Bool.false_eq_true, if_false, heff]
  have hroots : (init_trees st seed).pagesRoots =
      (page_builds counts).map (fun o => o.getD Node.nil) := by
    unfold init_trees
    rw [if_neg himg, hok]
    show (init_trees_core { st with numPagesSpin := spin2 }
      counts seed).pagesRoots = _
    unfold init_trees_core
    rw [hb2]
    simp only [Bool.false_eq_true, if_false, heff]
  have hmap : (new_perms (counts.map Int.toNat)
      st.imageCount seed).map List.length = counts.map Int.toNat :=
    buildPermsGo_map_length (counts.map Int.toNat)
      (shuffleList (List.range st.imageCount) seed).1 st.imageCount 0
      (shuffleList (List.range st.imageCount) seed).2 hpool
  have hplen : (new_perms (counts.map Int.toNat) st.imageCount seed).length =
      counts.length := by
    have h1 := congrArg List.length hmap
    simpa [new_perms] using h1
  refine ⟨?_, hperm, ?_, ?_⟩
  · intro i hi
    rw [hperms, hroots]
    have hi2 : i < (new_perms (counts.map Int.toNat)
        st.imageCount seed).length := by omega
    have hi3 : i < (page_builds counts).length := by
      simp [page_builds]
      omega
    rw [List.getD_eq_getElem _ _ hi2, List.getD_eq_getElem _ _ (by simpa using hi3)]
    have hi2' : i < ((new_perms (counts.map Int.toNat) st.imageCount
        seed).map List.length).length := by simpa using hi2
    have hlen1 := List.getElem_of_eq hmap hi2'
    rw [List.getElem_map, List.getElem_map] at hlen1
    rw [hlen1]
    have hi4 : i < ((page_builds counts).map
        (fun o => o.getD Node.nil)).length := by simpa using hi3
    have hroot : ((page_builds counts).map
        (fun o => o.getD Node.nil))[i] =
        (build_full_tree counts[i] (42 + i)).getD Node.nil := by
      simp [page_builds]
    rw [hroot]
    rw [leaf_ids_dedup_build_full_tree
      (List.all_eq_true.mp hpow _ (List.getElem_mem hi)) _]
  · intro hsum
    rw [hperms, new_perms]
    rw [buildPermsGo_flatten _ _ _ _ _ hpool (by omega)]
    rw [List.drop_zero]
  · intro p hp x hx
    rw [hperms, new_perms] at hp
    have hpool_ne : (shuffleList (List.range st.imageCount) seed).1 ≠ [] := by
      intro hc
      rw [hc] at hpool
      simp at hpool
      omega
    have h1 := buildPermsGo_mem _ _ _ _ _ p x hpool_ne hp hx
    have h2 : x ∈ List.range st.imageCount := (List.Perm.mem_iff hperm).mp h1
    exact List.mem_range.mp h2

theorem init_trees_perm_lengths_and_slicing_witness :
    (¬(sampleState 4 [[]]).imageCount = 0 ∧
      parse_page_config (sampleState 4 [[]]).configText
        (sampleState 4 [[]]).numPagesSpin = ParseOutcome.ok [4] 1 ∧
      ¬([4] : List Int).isEmpty) ∧
    ((init_trees (sampleState 4 [[]]) 3).pagesPerms.getD 0 []).length =
      ((leaf_ids ((init_trees (sampleState 4 [[]]) 3).pagesRoots.getD 0
        Node.nil)).dedup).length :=
  ⟨⟨by decide, by decide, by decide⟩,
    (init_trees_perm_lengths_and_slicing (sampleState 4 [[]]) 3 [4] 1
      (by decide) (by decide) (by decide)).1 0 (by decide)⟩

theorem start_optimization_tree_rebuild_rule_witness :
    (¬lockedTreeState.pagesRoots.isEmpty ∧
      ¬lockedTreeState.pagesPerms.isEmpty ∧
      any_tree_locked lockedTreeState = true) ∧
    (start_optimization lockedTreeState [] [] 0).1.pagesRoots =
      lockedTreeState.pagesRoots :=
  ⟨⟨by decide, by decide, by decide⟩,
    (start_optimization_tree_rebuild_rule lockedTreeState [] [] 0
      (by decide) (by decide) (Or.inl (by decide))).1 (by decide)⟩

theorem handle_drop_sets_crop_and_aspect_witness :
    (0 < (sampleState 4 []).pagesRoots.length ∧
      2 < ((sampleState 4 []).pagesPerms.getD 0 []).length ∧
      1 < (sampleState 4 []).imageCount) ∧
    (dict_get? (handle_drop (sampleState 4 []) 0 2 1).1.cropStates 1 = some false ∧
      1 ∈ (handle_drop (sampleState 4 []) 0 2 1).1.forcedAspects) :=
  ⟨by decide,
    handle_drop_sets_crop_and_aspect (sampleState 4 []) 0 2 1
      (by decide) (by decide) (by decide)⟩

end Album
